import Mathlib

/-!
Shallow embedding of the jobly repository: the `sqlForPartialUpdate` helper
(helpers/sql.js), the `Job` model (routes/jobs.js, second document: the Job
class), the `Company` model, and the route-level glue of `GET /jobs`.

Databases are modelled as lists of rows; each SQL statement of the source is
translated to the corresponding list operation (`WHERE` to `List.filter`,
`ORDER BY` to a stable insertion sort on the sort key, `LIKE '%p%'` to
substring containment on lowered strings, `SELECT` projections to record
projections).  JavaScript objects passed as update payloads are modelled as
association lists in iteration order; JS truthiness of query-string values
(where the empty string is the only falsy string) is modelled by `Option`.
-/

namespace Jobly

/-- Typed errors of expressError.js that the modelled code throws. -/
inductive Err where
  | badRequest
  | notFound
deriving DecidableEq, Repr

/-- SQL values appearing in update payloads: strings, integers, NULL. -/
inductive Val where
  | s (v : String)
  | i (v : Int)
  | null
deriving DecidableEq, Repr

/-- JS object property lookup `js[k]` on a string-to-string object,
modelled as first match in the association list. -/
def lookupJs (js : List (String × String)) (k : String) : Option String :=
  (js.find? (fun p => decide (p.1 = k))).map (fun p => p.2)

/-- The column-name choice `jsToSql[colName] || colName` of sql.js line 22:
JS `||` falls back both when the property is absent and when its value is
falsy (for strings: empty). -/
def colFor (js : List (String × String)) (k : String) : String :=
  match lookupJs js k with
  | some v => if v = "" then k else v
  | none => k

/-- Result record of `sqlForPartialUpdate`. -/
structure SqlUpdate (α : Type) where
  setCols : String
  values : List α
deriving DecidableEq, Repr

/-- helpers/sql.js `sqlForPartialUpdate`: keys of the data object in
iteration order become `"column"=$k` fragments numbered from 1, joined by
", "; values are the data object's values in the same order; an empty data
object raises BadRequestError. -/
def sqlForPartialUpdate {α : Type} (data : List (String × α))
    (js : List (String × String)) : Except Err (SqlUpdate α) :=
  let keys := data.map Prod.fst
  if keys.length = 0 then Except.error Err.badRequest
  else Except.ok
    { setCols := String.intercalate ", "
        (keys.mapIdx fun idx k =>
          "\"" ++ colFor js k ++ "\"=$" ++ toString (idx + 1))
      values := data.map Prod.snd }

/-- ASCII lowercasing of one code point, as `toLowerCase`/`LOWER` act on
the ASCII range. -/
def lowerCode (n : Nat) : Nat :=
  if 65 ≤ n ∧ n ≤ 90 then n + 32 else n

/-- The code points of a string. -/
def strCodes (s : String) : List Nat :=
  s.data.map fun c => c.toNat

/-- The code points of a string, lowercased. -/
def lowerCodes (s : String) : List Nat :=
  (strCodes s).map lowerCode

/-- `LIKE '%pat%'` containment: `pat` occurs as a contiguous substring. -/
def substrB (pat : List Nat) : List Nat → Bool
  | [] => pat.isEmpty
  | c :: t => pat.isPrefixOf (c :: t) || substrB pat t

/-- Case-insensitive substring match: both sides lowered, as in
`LOWER(title) LIKE $1` with a lowered `'%str%'` pattern in the source. -/
def likeMatch (pat s : String) : Bool :=
  substrB (lowerCodes pat) (lowerCodes s)

/-- Lexicographic comparison of code-point lists; the text collation used
to model `ORDER BY` on a string column. -/
def leCodes : List Nat → List Nat → Bool
  | [], _ => true
  | _ :: _, [] => false
  | a :: as, b :: bs =>
    if a < b then true else if b < a then false else leCodes as bs

/-- String comparison for `ORDER BY`: code-point lexicographic. -/
def strLe (a b : String) : Bool :=
  leCodes (strCodes a) (strCodes b)

/-- Decimal digits of a numeric string, most significant first; `none` as
soon as a non-digit appears. -/
def parseDigits (cs : List Char) : Option Nat :=
  cs.foldl
    (fun acc c =>
      acc.bind fun a => if c.isDigit then some (a * 10 + (c.toNat - 48)) else none)
    (some 0)

/-- The integer value of a numeric query-string parameter, as the database
driver coerces the bound text to an integer column; `none` on non-numeric
text (which the database would reject). -/
def parseIntStr (s : String) : Option Int :=
  match s.data with
  | [] => none
  | c :: rest =>
    if c = '-' then
      if rest.isEmpty then none else (parseDigits rest).map fun n => -(n : Int)
    else (parseDigits (c :: rest)).map fun n => (n : Int)

/-- A row of the `jobs` table.  `id` is the database-generated key;
`salary` and `equity` are nullable.  Equity is kept as the numeric string
the database returns. -/
structure JobRow where
  id : Nat
  title : String
  salary : Option Int
  equity : Option String
  companyHandle : String
deriving DecidableEq, Repr

/-- The projection every Job query selects:
`title, salary, equity, company_Handle AS "companyHandle"` — no `id`. -/
structure JobOut where
  title : String
  salary : Option Int
  equity : Option String
  companyHandle : String
deriving DecidableEq, Repr

def toJobOut (r : JobRow) : JobOut :=
  ⟨r.title, r.salary, r.equity, r.companyHandle⟩

/-- `salary >= $1` under SQL three-valued logic: a NULL salary never
satisfies the comparison. -/
def salaryGE (r : JobRow) (n : Int) : Bool :=
  match r.salary with
  | some v => decide (n ≤ v)
  | none => false

/-- JS truthiness of an optional query-string value: `undefined` and the
empty string are falsy, every other string is truthy. -/
def truthyStr : Option String → Option String
  | some s => if s = "" then none else some s
  | none => none

namespace Job

/-- `Job.findAll`: all rows, projected, `ORDER BY title`. -/
def findAll (db : List JobRow) : List JobOut :=
  List.insertionSort (fun a b => strLe a.title b.title = true) (db.map toJobOut)

/-- `Job.title_filter`: rows whose lowered title contains the lowered
search string, `ORDER BY title`. -/
def title_filter (db : List JobRow) (s : String) : List JobOut :=
  List.insertionSort (fun a b => strLe a.title b.title = true)
    ((db.filter fun r => likeMatch s r.title).map toJobOut)

/-- `Job.minSalary_filter`: rows with `salary >= $1`, `ORDER BY salary`. -/
def minSalary_filter (db : List JobRow) (n : Int) : List JobOut :=
  List.insertionSort (fun a b => a.salary.getD 0 ≤ b.salary.getD 0)
    ((db.filter fun r => salaryGE r n).map toJobOut)

/-- `Job.hasEquity_filter`: with a true flag, rows with
`equity IS NOT NULL`; otherwise all rows; `ORDER BY title`. -/
def hasEquity_filter (db : List JobRow) (h : Bool) : List JobOut :=
  List.insertionSort (fun a b => strLe a.title b.title = true)
    ((if h then db.filter fun r => r.equity.isSome else db).map toJobOut)

/-- `Job.multi_filter(str, minSalary, hasEquity)`: one query per criterion
(the full table when a criterion is not supplied), then the rows of the
title result whose title also occurs in the other two results
(`Array.prototype.filter` over `some` title comparisons). -/
def multi_filter (db : List JobRow) (title : Option String)
    (minSalary : Option Int) (hasEquity : Bool) : List JobOut :=
  let titleRes := match truthyStr title with
    | some s => Job.title_filter db s
    | none => Job.findAll db
  let minRes := match minSalary with
    | some n => Job.minSalary_filter db n
    | none => Job.findAll db
  let eqRes := if hasEquity then Job.hasEquity_filter db hasEquity
    else Job.findAll db
  titleRes.filter fun j =>
    (minRes.any fun m => decide (m.title = j.title)) &&
    (eqRes.any fun e => decide (e.title = j.title))

/-- `Job.create`: INSERT with a database-generated id, RETURNING the
projection without the id. -/
def create (title : String) (salary : Option Int) (equity : Option String)
    (companyHandle : String) (nextId : Nat) (db : List JobRow) :
    JobOut × List JobRow :=
  let r : JobRow := ⟨nextId, title, salary, equity, companyHandle⟩
  (toJobOut r, db ++ [r])

/-- `Job.get`: `SELECT ... WHERE id=$1`, `rows[0]`; NotFoundError when no
row matches. -/
def get (db : List JobRow) (i : Nat) : Except Err JobOut :=
  match db.find? (fun r => decide (r.id = i)) with
  | some r => Except.ok (toJobOut r)
  | none => Except.error Err.notFound

/-- `Job.remove`: `DELETE ... WHERE id = $1 RETURNING id`; NotFoundError
when no row was deleted, otherwise the table without the matching rows. -/
def remove (db : List JobRow) (i : Nat) : Except Err (List JobRow) :=
  if db.any (fun r => decide (r.id = i)) then
    Except.ok (db.filter fun r => decide (r.id ≠ i))
  else Except.error Err.notFound

/-- The jsToSql mapping Job.update passes to sqlForPartialUpdate. -/
def jsToSql : List (String × String) := [("companyHandle", "company_Handle")]

/-- Effect of one `"column"=$k` assignment of the generated SET clause on a
row, by translated column name.  A value of the wrong type for the column
would make the database reject the statement; such assignments leave the
row unchanged here and are excluded by the well-typedness hypotheses of the
update theorems.  `id` is not an assignable column. -/
def setJobCol (r : JobRow) (c : String) (v : Val) : JobRow :=
  if c = "title" then
    match v with | Val.s s => { r with title := s } | _ => r
  else if c = "salary" then
    match v with
    | Val.i n => { r with salary := some n }
    | Val.null => { r with salary := none }
    | _ => r
  else if c = "equity" then
    match v with
    | Val.s s => { r with equity := some s }
    | Val.null => { r with equity := none }
    | _ => r
  else if c = "company_Handle" then
    match v with | Val.s s => { r with companyHandle := s } | _ => r
  else r

/-- `Job.update`: builds the SET clause through `sqlForPartialUpdate`
(propagating its BadRequestError), executes
`UPDATE jobs SET ... WHERE id = $k RETURNING title, salary, equity,
company_Handle AS "companyHandle"`: every row whose id matches receives the
assignments in order, `rows[0]` is returned, NotFoundError when no row
matched. -/
def update (db : List JobRow) (i : Nat) (data : List (String × Val)) :
    Except Err (JobOut × List JobRow) :=
  match sqlForPartialUpdate data Job.jsToSql with
  | Except.error e => Except.error e
  | Except.ok _ =>
    let upd := fun r : JobRow =>
      data.foldl (fun r kv => setJobCol r (colFor Job.jsToSql kv.1) kv.2) r
    match db.find? (fun r => decide (r.id = i)) with
    | some r =>
      Except.ok (toJobOut (upd r), db.map fun r => if r.id = i then upd r else r)
    | none => Except.error Err.notFound

end Job

/-- A row of the `companies` table.  Every Company query selects all five
columns, so rows and query results share this type.  `handle` is the
primary key; `num_employees` and `logo_url` are nullable. -/
structure CompanyRow where
  handle : String
  name : String
  description : String
  numEmployees : Option Int
  logoUrl : Option String
deriving DecidableEq, Repr

/-- `num_employees >= $1` under SQL three-valued logic. -/
def empGE (c : CompanyRow) (n : Int) : Bool :=
  match c.numEmployees with
  | some v => decide (n ≤ v)
  | none => false

/-- `num_employees <= $1` under SQL three-valued logic. -/
def empLE (c : CompanyRow) (n : Int) : Bool :=
  match c.numEmployees with
  | some v => decide (v ≤ n)
  | none => false

namespace Company

/-- `Company.findAll`: all rows, `ORDER BY name`. -/
def findAll (db : List CompanyRow) : List CompanyRow :=
  List.insertionSort (fun a b => strLe a.name b.name = true) db

/-- `Company.name_filter`: rows whose lowered name contains the lowered
search string, `ORDER BY name`. -/
def name_filter (db : List CompanyRow) (s : String) : List CompanyRow :=
  List.insertionSort (fun a b => strLe a.name b.name = true)
    (db.filter fun c => likeMatch s c.name)

/-- `Company.minEmployees_filter`: `num_employees>=$1`, ordered by it. -/
def minEmployees_filter (db : List CompanyRow) (n : Int) : List CompanyRow :=
  List.insertionSort (fun a b => a.numEmployees.getD 0 ≤ b.numEmployees.getD 0)
    (db.filter fun c => empGE c n)

/-- `Company.maxEmployees_filter`: `num_employees<=$1`, ordered by it. -/
def maxEmployees_filter (db : List CompanyRow) (n : Int) : List CompanyRow :=
  List.insertionSort (fun a b => a.numEmployees.getD 0 ≤ b.numEmployees.getD 0)
    (db.filter fun c => empLE c n)

/-- `Company.multi_filter(str, min, max)`: one query per criterion (the
full table when a criterion is not supplied), then the rows of the name
result whose name also occurs in the other two results. -/
def multi_filter (db : List CompanyRow) (str : Option String)
    (mn mx : Option Int) : List CompanyRow :=
  let nameResults := match truthyStr str with
    | some s => Company.name_filter db s
    | none => Company.findAll db
  let minResults := match mn with
    | some n => Company.minEmployees_filter db n
    | none => Company.findAll db
  let maxResults := match mx with
    | some n => Company.maxEmployees_filter db n
    | none => Company.findAll db
  nameResults.filter fun c =>
    (minResults.any fun m => decide (m.name = c.name)) &&
    (maxResults.any fun m => decide (m.name = c.name))

/-- A company together with the nested jobs array `Company.get` attaches. -/
structure WithJobs where
  company : CompanyRow
  jobs : List JobOut
deriving DecidableEq, Repr

/-- `Company.get`: the company row for the handle (NotFoundError when
absent) with the jobs whose `company_handle` matches, `ORDER BY title`,
attached as a nested array. -/
def get (cdb : List CompanyRow) (jdb : List JobRow) (h : String) :
    Except Err Company.WithJobs :=
  match cdb.find? (fun c => decide (c.handle = h)) with
  | some c =>
    Except.ok
      ⟨c, List.insertionSort (fun a b => strLe a.title b.title = true)
        ((jdb.filter fun j => decide (j.companyHandle = h)).map toJobOut)⟩
  | none => Except.error Err.notFound

/-- `Company.remove`: `DELETE ... WHERE handle = $1 RETURNING handle`;
NotFoundError when no row was deleted. -/
def remove (cdb : List CompanyRow) (h : String) :
    Except Err (List CompanyRow) :=
  if cdb.any (fun c => decide (c.handle = h)) then
    Except.ok (cdb.filter fun c => decide (c.handle ≠ h))
  else Except.error Err.notFound

/-- The jsToSql mapping Company.update passes to sqlForPartialUpdate. -/
def jsToSql : List (String × String) :=
  [("numEmployees", "num_employees"), ("logoUrl", "logo_url")]

/-- Effect of one SET assignment on a company row, by translated column
name; wrong-typed assignments leave the row unchanged (see `setJobCol`). -/
def setCompanyCol (c : CompanyRow) (col : String) (v : Val) : CompanyRow :=
  if col = "handle" then
    match v with | Val.s s => { c with handle := s } | _ => c
  else if col = "name" then
    match v with | Val.s s => { c with name := s } | _ => c
  else if col = "description" then
    match v with | Val.s s => { c with description := s } | _ => c
  else if col = "num_employees" then
    match v with
    | Val.i n => { c with numEmployees := some n }
    | Val.null => { c with numEmployees := none }
    | _ => c
  else if col = "logo_url" then
    match v with
    | Val.s s => { c with logoUrl := some s }
    | Val.null => { c with logoUrl := none }
    | _ => c
  else c

/-- `Company.update`: SET clause through `sqlForPartialUpdate`, then
`UPDATE companies SET ... WHERE handle = $k RETURNING ...`; `rows[0]` or
NotFoundError. -/
def update (cdb : List CompanyRow) (h : String)
    (data : List (String × Val)) :
    Except Err (CompanyRow × List CompanyRow) :=
  match sqlForPartialUpdate data Company.jsToSql with
  | Except.error e => Except.error e
  | Except.ok _ =>
    let upd := fun c : CompanyRow =>
      data.foldl (fun c kv => setCompanyCol c (colFor Company.jsToSql kv.1) kv.2) c
    match cdb.find? (fun c => decide (c.handle = h)) with
    | some c =>
      Except.ok (upd c, cdb.map fun c => if c.handle = h then upd c else c)
    | none => Except.error Err.notFound

end Company

/-- The `GET /jobs` route handler: converts the raw `hasEquity` query
string to a boolean by strict comparison with the string "true"
(`req.query.hasEquity === 'true'`), and hands the raw title and minSalary
strings to `Job.multi_filter`.  The minSalary string, when truthy, is
bound as a numeric SQL parameter; a non-numeric string would make the
database reject the query, so only its numeric values are modelled. -/
def getJobsHandler (db : List JobRow) (title minSalary hasEquity : Option String) :
    List JobOut :=
  let hasEq : Bool := decide (hasEquity = some "true")
  let minS : Option Int := match truthyStr minSalary with
    | some s => parseIntStr s
    | none => none
  Job.multi_filter db title minS hasEq

/-- Modelled from the spec: the `GET /companies` route handler is not
among the source files (only the Company model is).  Per the spec, when
both minEmployees and maxEmployees are supplied and min > max the request
is rejected with a 400 validation error before any database query runs;
otherwise the handler delegates to `Company.multi_filter`, whose three
branches each execute exactly one query.  The second component counts the
database queries executed. -/
def getCompaniesHandler (db : List CompanyRow) (name : Option String)
    (minEmployees maxEmployees : Option Int) :
    Except Err (List CompanyRow) × Nat :=
  match minEmployees, maxEmployees with
  | some mn, some mx =>
    if mx < mn then (Except.error Err.badRequest, 0)
    else (Except.ok (Company.multi_filter db name minEmployees maxEmployees), 3)
  | _, _ => (Except.ok (Company.multi_filter db name minEmployees maxEmployees), 3)

end Jobly

namespace Jobly

theorem mem_job_findAll {db : List JobRow} {o : JobOut} :
    o ∈ Job.findAll db ↔ ∃ j ∈ db, toJobOut j = o := by
  simp [Job.findAll, List.mem_insertionSort]

theorem mem_job_title_filter {db : List JobRow} {s : String} {o : JobOut} :
    o ∈ Job.title_filter db s ↔
      ∃ j ∈ db, toJobOut j = o ∧ likeMatch s j.title = true := by
  simp [Job.title_filter, List.mem_insertionSort, List.mem_filter]
  tauto

theorem mem_job_minSalary_filter {db : List JobRow} {n : Int} {o : JobOut} :
    o ∈ Job.minSalary_filter db n ↔
      ∃ j ∈ db, toJobOut j = o ∧ salaryGE j n = true := by
  simp [Job.minSalary_filter, List.mem_insertionSort, List.mem_filter]
  tauto

theorem mem_job_hasEquity_filter {db : List JobRow} {o : JobOut} :
    o ∈ Job.hasEquity_filter db true ↔
      ∃ j ∈ db, toJobOut j = o ∧ j.equity.isSome = true := by
  simp [Job.hasEquity_filter, List.mem_insertionSort, List.mem_filter]
  tauto

theorem mem_job_titleRes {db : List JobRow} {t : Option String} {o : JobOut} :
    (o ∈ match truthyStr t with
      | some s => Job.title_filter db s
      | none => Job.findAll db) ↔
    ∃ j ∈ db, toJobOut j = o ∧
      ∀ s, truthyStr t = some s → likeMatch s j.title = true := by
  rcases ht : truthyStr t with _ | s
  · simp [mem_job_findAll]
  · simp only [mem_job_title_filter]
    constructor
    · rintro ⟨j, hj, rfl, hl⟩
      exact ⟨j, hj, rfl, fun s' hs' => by cases hs'; exact hl⟩
    · rintro ⟨j, hj, rfl, hl⟩
      exact ⟨j, hj, rfl, hl s rfl⟩

theorem job_minRes_any {db : List JobRow} {m : Option Int} {o : JobOut}
    (ho : ∃ j ∈ db, toJobOut j = o) :
    ((match m with
      | some n => Job.minSalary_filter db n
      | none => Job.findAll db).any fun x => decide (x.title = o.title)) = true ↔
    ∀ n, m = some n → ∃ j ∈ db, j.title = o.title ∧ salaryGE j n = true := by
  rcases m with _ | n
  · simp only [List.any_eq_true, decide_eq_true_eq]
    constructor
    · rintro - n hn; cases hn
    · rintro -
      obtain ⟨j, hj, rfl⟩ := ho
      exact ⟨toJobOut j, mem_job_findAll.mpr ⟨j, hj, rfl⟩, rfl⟩
  · simp only [List.any_eq_true, decide_eq_true_eq]
    constructor
    · rintro ⟨x, hx, hxt⟩ n' hn'
      cases hn'
      obtain ⟨j, hj, rfl, hs⟩ := mem_job_minSalary_filter.mp hx
      exact ⟨j, hj, hxt, hs⟩
    · intro hall
      obtain ⟨j, hj, hjt, hs⟩ := hall n rfl
      exact ⟨toJobOut j, mem_job_minSalary_filter.mpr ⟨j, hj, rfl, hs⟩, hjt⟩

theorem job_eqRes_any {db : List JobRow} {h : Bool} {o : JobOut}
    (ho : ∃ j ∈ db, toJobOut j = o) :
    ((if h then Job.hasEquity_filter db h
      else Job.findAll db).any fun x => decide (x.title = o.title)) = true ↔
    (h = true → ∃ j ∈ db, j.title = o.title ∧ j.equity.isSome = true) := by
  rcases h with _ | _
  · simp only [if_neg (by decide : ¬ (false = true)), List.any_eq_true,
      decide_eq_true_eq]
    constructor
    · rintro - hf; cases hf
    · rintro -
      obtain ⟨j, hj, rfl⟩ := ho
      exact ⟨toJobOut j, mem_job_findAll.mpr ⟨j, hj, rfl⟩, rfl⟩
  · simp only [if_pos rfl, List.any_eq_true, decide_eq_true_eq]
    constructor
    · rintro ⟨x, hx, hxt⟩ -
      obtain ⟨j, hj, rfl, hs⟩ := mem_job_hasEquity_filter.mp hx
      exact ⟨j, hj, hxt, hs⟩
    · intro hall
      obtain ⟨j, hj, hjt, hs⟩ := hall (by trivial)
      exact ⟨toJobOut j, mem_job_hasEquity_filter.mpr ⟨j, hj, rfl, hs⟩, hjt⟩

theorem job_multi_filter_mem (db : List JobRow) (t : Option String) (m : Option Int)
    (h : Bool) (o : JobOut) :
    o ∈ Job.multi_filter db t m h ↔
      ((∃ j ∈ db, toJobOut j = o ∧
          ∀ s, truthyStr t = some s → likeMatch s j.title = true)
       ∧ (∀ n, m = some n → ∃ j ∈ db, j.title = o.title ∧ salaryGE j n = true)
       ∧ (h = true → ∃ j ∈ db, j.title = o.title ∧ j.equity.isSome = true)) := by
  simp only [Job.multi_filter, List.mem_filter, Bool.and_eq_true,
    mem_job_titleRes]
  constructor
  · rintro ⟨⟨j, hj, rfl, hl⟩, h1, h2⟩
    have ho : ∃ j' ∈ db, toJobOut j' = toJobOut j := ⟨j, hj, rfl⟩
    exact ⟨⟨j, hj, rfl, hl⟩, (job_minRes_any ho).mp h1, (job_eqRes_any ho).mp h2⟩
  · rintro ⟨⟨j, hj, rfl, hl⟩, h1, h2⟩
    have ho : ∃ j' ∈ db, toJobOut j' = toJobOut j := ⟨j, hj, rfl⟩
    exact ⟨⟨j, hj, rfl, hl⟩, (job_minRes_any ho).mpr h1, (job_eqRes_any ho).mpr h2⟩


theorem mem_company_findAll {db : List CompanyRow} {o : CompanyRow} :
    o ∈ Company.findAll db ↔ o ∈ db := by
  simp [Company.findAll, List.mem_insertionSort]

theorem mem_company_name_filter {db : List CompanyRow} {s : String}
    {o : CompanyRow} :
    o ∈ Company.name_filter db s ↔ o ∈ db ∧ likeMatch s o.name = true := by
  simp [Company.name_filter, List.mem_insertionSort, List.mem_filter]

theorem mem_company_minEmployees_filter {db : List CompanyRow} {n : Int}
    {o : CompanyRow} :
    o ∈ Company.minEmployees_filter db n ↔ o ∈ db ∧ empGE o n = true := by
  simp [Company.minEmployees_filter, List.mem_insertionSort, List.mem_filter]

theorem mem_company_maxEmployees_filter {db : List CompanyRow} {n : Int}
    {o : CompanyRow} :
    o ∈ Company.maxEmployees_filter db n ↔ o ∈ db ∧ empLE o n = true := by
  simp [Company.maxEmployees_filter, List.mem_insertionSort, List.mem_filter]

theorem mem_company_nameRes {db : List CompanyRow} {t : Option String}
    {o : CompanyRow} :
    (o ∈ match truthyStr t with
      | some s => Company.name_filter db s
      | none => Company.findAll db) ↔
    o ∈ db ∧ ∀ s, truthyStr t = some s → likeMatch s o.name = true := by
  rcases ht : truthyStr t with _ | s
  · simp [mem_company_findAll]
  · simp only [mem_company_name_filter]
    constructor
    · rintro ⟨h1, h2⟩
      exact ⟨h1, fun s' hs' => by cases hs'; exact h2⟩
    · rintro ⟨h1, h2⟩
      exact ⟨h1, h2 s rfl⟩

theorem company_minRes_any {db : List CompanyRow} {m : Option Int}
    {o : CompanyRow} (ho : o ∈ db) :
    ((match m with
      | some n => Company.minEmployees_filter db n
      | none => Company.findAll db).any fun x => decide (x.name = o.name)) = true ↔
    ∀ n, m = some n → ∃ c ∈ db, c.name = o.name ∧ empGE c n = true := by
  rcases m with _ | n
  · simp only [List.any_eq_true, decide_eq_true_eq]
    constructor
    · rintro - n hn; cases hn
    · rintro -
      exact ⟨o, mem_company_findAll.mpr ho, rfl⟩
  · simp only [List.any_eq_true, decide_eq_true_eq]
    constructor
    · rintro ⟨x, hx, hxt⟩ n' hn'
      cases hn'
      obtain ⟨h1, h2⟩ := mem_company_minEmployees_filter.mp hx
      exact ⟨x, h1, hxt, h2⟩
    · intro hall
      obtain ⟨c, hc, hct, hg⟩ := hall n rfl
      exact ⟨c, mem_company_minEmployees_filter.mpr ⟨hc, hg⟩, hct⟩

theorem company_maxRes_any {db : List CompanyRow} {m : Option Int}
    {o : CompanyRow} (ho : o ∈ db) :
    ((match m with
      | some n => Company.maxEmployees_filter db n
      | none => Company.findAll db).any fun x => decide (x.name = o.name)) = true ↔
    ∀ n, m = some n → ∃ c ∈ db, c.name = o.name ∧ empLE c n = true := by
  rcases m with _ | n
  · simp only [List.any_eq_true, decide_eq_true_eq]
    constructor
    · rintro - n hn; cases hn
    · rintro -
      exact ⟨o, mem_company_findAll.mpr ho, rfl⟩
  · simp only [List.any_eq_true, decide_eq_true_eq]
    constructor
    · rintro ⟨x, hx, hxt⟩ n' hn'
      cases hn'
      obtain ⟨h1, h2⟩ := mem_company_maxEmployees_filter.mp hx
      exact ⟨x, h1, hxt, h2⟩
    · intro hall
      obtain ⟨c, hc, hct, hg⟩ := hall n rfl
      exact ⟨c, mem_company_maxEmployees_filter.mpr ⟨hc, hg⟩, hct⟩

theorem company_multi_filter_mem (db : List CompanyRow) (t : Option String)
    (mn mx : Option Int) (o : CompanyRow) :
    o ∈ Company.multi_filter db t mn mx ↔
      ((o ∈ db ∧ ∀ s, truthyStr t = some s → likeMatch s o.name = true)
       ∧ (∀ n, mn = some n → ∃ c ∈ db, c.name = o.name ∧ empGE c n = true)
       ∧ (∀ n, mx = some n → ∃ c ∈ db, c.name = o.name ∧ empLE c n = true)) := by
  simp only [Company.multi_filter, List.mem_filter, Bool.and_eq_true,
    mem_company_nameRes]
  constructor
  · rintro ⟨⟨ho, hl⟩, h1, h2⟩
    exact ⟨⟨ho, hl⟩, (company_minRes_any ho).mp h1, (company_maxRes_any ho).mp h2⟩
  · rintro ⟨⟨ho, hl⟩, h1, h2⟩
    exact ⟨⟨ho, hl⟩, (company_minRes_any ho).mpr h1, (company_maxRes_any ho).mpr h2⟩

end Jobly

namespace Jobly

/-- C2: For every call to `Job.multi_filter(title, minSalary, hasEquity)` and
`Company.multi_filter(name, min, max)`, each supplied criterion independently
queries the full table under its single predicate (case-insensitive substring
via lowercasing both sides for title/name, `>=` for the numeric threshold,
`IS NOT NULL` for equity presence), each unsupplied criterion's comparison
set is the full row set, and the result holds exactly the rows of the
title/name-filtered set whose title (resp. name) also appears as the
title/name of some row in each of the other two sets. -/
theorem multi_filter_per_criterion_intersection :
    (∀ (db : List JobRow) (t : Option String) (m : Option Int) (h : Bool)
        (o : JobOut),
      o ∈ Job.multi_filter db t m h ↔
        ((∃ j ∈ db, toJobOut j = o ∧
            ∀ s, truthyStr t = some s → likeMatch s j.title = true)
         ∧ (∀ n, m = some n →
              ∃ j ∈ db, j.title = o.title ∧ salaryGE j n = true)
         ∧ (h = true →
              ∃ j ∈ db, j.title = o.title ∧ j.equity.isSome = true)))
    ∧ (∀ (db : List CompanyRow) (t : Option String) (mn mx : Option Int)
        (o : CompanyRow),
      o ∈ Company.multi_filter db t mn mx ↔
        ((o ∈ db ∧ ∀ s, truthyStr t = some s → likeMatch s o.name = true)
         ∧ (∀ n, mn = some n →
              ∃ c ∈ db, c.name = o.name ∧ empGE c n = true)
         ∧ (∀ n, mx = some n →
              ∃ c ∈ db, c.name = o.name ∧ empLE c n = true))) :=
  ⟨job_multi_filter_mem, company_multi_filter_mem⟩

/-- C1: the claim that combined filters intersect by primary identity fails
on the code: with two distinct companies (handles "alpha" and "beta") sharing
the display name "Net", the request name=net with minEmployees=5 returns both
companies, although "alpha" has only 2 employees; the intersection keyed by
handle would contain "beta" alone.  The collection is keyed by display name
instead. -/
theorem company_multi_filter_name_collision :
    Company.multi_filter
        [⟨"alpha", "Net", "d1", some 2, none⟩,
         ⟨"beta", "Net", "d2", some 10, none⟩]
        (some "net") (some 5) none =
      [⟨"alpha", "Net", "d1", some 2, none⟩,
       ⟨"beta", "Net", "d2", some 10, none⟩]
    ∧ empGE ⟨"alpha", "Net", "d1", some 2, none⟩ 5 = false :=
  ⟨rfl, rfl⟩

/-- C3: the claim that a request supplying only minSalary=N returns exactly
the jobs with salary ≥ N (and only hasEquity=true exactly those with
non-null equity) fails on the code: with two jobs sharing the title "pilot",
minSalary=3000 also returns the job with salary 100, and hasEquity=true also
returns the job with null equity, because a same-titled job passes the
filter. -/
theorem jobs_single_filter_title_collision :
    (getJobsHandler
        [⟨1, "pilot", some 100, none, "c1"⟩,
         ⟨2, "pilot", some 5000, some "0.5", "c1"⟩]
        none (some "3000") none =
      [⟨"pilot", some 100, none, "c1"⟩, ⟨"pilot", some 5000, some "0.5", "c1"⟩])
    ∧ salaryGE ⟨1, "pilot", some 100, none, "c1"⟩ 3000 = false
    ∧ (getJobsHandler
        [⟨1, "pilot", some 100, none, "c1"⟩,
         ⟨2, "pilot", some 5000, some "0.5", "c1"⟩]
        none none (some "true") =
      [⟨"pilot", some 100, none, "c1"⟩, ⟨"pilot", some 5000, some "0.5", "c1"⟩])
    ∧ (⟨1, "pilot", some 100, none, "c1"⟩ : JobRow).equity.isSome = false :=
  ⟨rfl, rfl, rfl, rfl⟩

/-- C4: a GET /companies request supplying both minEmployees and
maxEmployees with min > max is rejected with a 400 validation error and
executes no database query (the query counter stays 0). -/
theorem companies_min_gt_max_rejected :
    ∀ (db : List CompanyRow) (name : Option String) (mn mx : Int),
      mx < mn →
      getCompaniesHandler db name (some mn) (some mx) =
        (Except.error Err.badRequest, 0) := by
  intro db name mn mx hlt
  simp [getCompaniesHandler, hlt]

theorem companies_min_gt_max_rejected_witness :
    getCompaniesHandler [] none (some 5) (some 2) =
      (Except.error Err.badRequest, 0) :=
  companies_min_gt_max_rejected [] none 5 2 (by decide)

/-- C6: `sqlForPartialUpdate` raises BadRequestError exactly when the data
mapping has no fields, and returns normally on every non-empty mapping. -/
theorem sql_update_error_iff_empty :
    ∀ (α : Type) (data : List (String × α)) (js : List (String × String)),
      (sqlForPartialUpdate data js = Except.error Err.badRequest ↔ data = [])
      ∧ (data ≠ [] → ∃ u, sqlForPartialUpdate data js = Except.ok u) := by
  intro α data js
  cases data with
  | nil => exact ⟨⟨fun _ => rfl, fun _ => rfl⟩, fun h => absurd rfl h⟩
  | cons kv rest =>
    refine ⟨⟨fun h => ?_, fun h => by cases h⟩, fun _ => ⟨_, rfl⟩⟩
    · exact absurd h (by simp [sqlForPartialUpdate])

theorem sql_update_error_iff_empty_witness :
    [(("title", Val.s "x"))] ≠ ([] : List (String × Val)) ∧
    ∃ u, sqlForPartialUpdate [("title", Val.s "x")] ([] : List (String × String)) =
      Except.ok u :=
  ⟨by decide,
   (sql_update_error_iff_empty Val [("title", Val.s "x")] []).2 (by decide)⟩

/-- C9: the hasEquity query parameter of GET /jobs activates the
equity-presence filter only when its value is exactly the string "true"; for
every other value (or when absent) the handler behaves as if the parameter
were absent, and with "true" every returned row shares its title with a row
whose equity is non-null. -/
theorem has_equity_strict_true :
    ∀ (db : List JobRow) (t m p : Option String),
      (p ≠ some "true" → getJobsHandler db t m p = getJobsHandler db t m none)
      ∧ (∀ o ∈ getJobsHandler db t m (some "true"),
          ∃ j ∈ db, j.title = o.title ∧ j.equity.isSome = true) := by
  intro db t m p
  constructor
  · intro hp
    have h1 : (decide (p = some "true")) = false := decide_eq_false hp
    simp only [getJobsHandler, h1, decide_eq_false (by simp :
      ¬ ((none : Option String) = some "true"))]
  · intro o ho
    have hh : getJobsHandler db t m (some "true") =
        Job.multi_filter db t
          (match truthyStr m with | some s => parseIntStr s | none => none)
          true := by
      simp [getJobsHandler]
    rw [hh] at ho
    exact ((job_multi_filter_mem db t _ true o).mp ho).2.2 rfl

theorem has_equity_strict_true_witness :
    getJobsHandler [⟨1, "a", none, some "0.2", "c"⟩] none none (some "TRUE") =
      getJobsHandler [⟨1, "a", none, some "0.2", "c"⟩] none none none :=
  (has_equity_strict_true [⟨1, "a", none, some "0.2", "c"⟩] none none
    (some "TRUE")).1 (by decide)

end Jobly

namespace Jobly

theorem mapIdx_eq_range_map {α β : Type} (l : List α) (f : Nat → α → β)
    (d : α) :
    l.mapIdx f = (List.range l.length).map fun i => f i (l.getD i d) := by
  induction l generalizing f with
  | nil => rfl
  | cons a l ih =>
    simp only [List.mapIdx_cons, List.length_cons, List.range_succ_eq_map,
      List.map_cons, List.getD_cons_zero, List.map_map]
    refine congrArg (List.cons (f 0 a)) ?_
    rw [ih fun i x => f (i + 1) x]
    refine List.map_congr_left fun i hi => ?_
    simp [Function.comp, Nat.succ_eq_add_one, List.getD_cons_succ]

/-- C5 counterexample: the claim reads the fragment column as "jsToSql's
entry for the field, or the field name itself when no entry exists"; when
the entry exists but is the empty string, the code still falls back to the
field name (JS `||` is falsy-based), so the produced fragment quotes "f"
rather than the empty entry. -/
theorem sql_update_empty_entry_counterexample :
    lookupJs [("f", "")] "f" = some "" ∧
    sqlForPartialUpdate [("f", Val.i 1)] [("f", "")] =
      Except.ok ⟨"\"f\"=$1", [Val.i 1]⟩ ∧
    "\"f\"=$1" ≠ "\"\"=$1" :=
  ⟨rfl, rfl, by decide⟩

/-- C5 (amended): for every non-empty mapping, `sqlForPartialUpdate` returns
the comma-joined fragments `"column"=$k`, one per supplied field in
iteration order and numbered from 1, where column is jsToSql's entry when a
non-empty entry exists and the field name otherwise (the falsy-based lookup
also falls back on an empty-string entry), together with the field values in
the same order. -/
theorem sql_update_fragments :
    ∀ (α : Type) (data : List (String × α)) (js : List (String × String)),
      data ≠ [] →
      sqlForPartialUpdate data js =
        Except.ok
          { setCols := String.intercalate ", "
              ((List.range data.length).map fun i =>
                "\"" ++
                  (match lookupJs js ((data.map Prod.fst).getD i "") with
                   | some v =>
                     if v = "" then (data.map Prod.fst).getD i "" else v
                   | none => (data.map Prod.fst).getD i "") ++
                  "\"=$" ++ toString (i + 1))
            values := data.map Prod.snd } := by
  intro α data js hne
  have hlen : (data.map Prod.fst).length = data.length := List.length_map _ _
  have hnz : ¬ ((data.map Prod.fst).length = 0) := by
    simpa [hlen, List.length_eq_zero] using hne
  simp only [sqlForPartialUpdate, if_neg hnz]
  rw [mapIdx_eq_range_map (data.map Prod.fst) _ "", hlen]
  rfl

theorem sql_update_fragments_witness :
    sqlForPartialUpdate [("name", Val.s "N"), ("numEmployees", Val.i 3)]
        Company.jsToSql =
      Except.ok ⟨"\"name\"=$1, \"num_employees\"=$2", [Val.s "N", Val.i 3]⟩ :=
  sql_update_fragments Val [("name", Val.s "N"), ("numEmployees", Val.i 3)]
    Company.jsToSql (by decide)

end Jobly

namespace Jobly

theorem job_get_error_iff {db : List JobRow} {i : Nat} :
    Job.get db i = Except.error Err.notFound ↔ ∀ r ∈ db, r.id ≠ i := by
  constructor
  · intro he r hr hid
    have hs : (db.find? fun r => decide (r.id = i)).isSome :=
      List.find?_isSome.mpr ⟨r, hr, by simp [hid]⟩
    rcases heq : db.find? (fun r => decide (r.id = i)) with _ | r'
    · rw [heq] at hs; cases hs
    · unfold Job.get at he; rw [heq] at he; cases he
  · intro hall
    have hn : db.find? (fun r => decide (r.id = i)) = none :=
      List.find?_eq_none.mpr fun x hx => by simp [hall x hx]
    unfold Job.get; rw [hn]

theorem job_remove_error_iff {db : List JobRow} {i : Nat} :
    Job.remove db i = Except.error Err.notFound ↔ ∀ r ∈ db, r.id ≠ i := by
  constructor
  · intro he r hr hid
    have ha : db.any (fun r => decide (r.id = i)) = true :=
      List.any_eq_true.mpr ⟨r, hr, by simp [hid]⟩
    unfold Job.remove at he; rw [if_pos ha] at he; cases he
  · intro hall
    have ha : ¬ (db.any (fun r => decide (r.id = i)) = true) := fun h => by
      obtain ⟨x, hx, hpx⟩ := List.any_eq_true.mp h
      exact hall x hx (by simpa using hpx)
    unfold Job.remove; rw [if_neg ha]

theorem job_remove_then_get {db : List JobRow} {i : Nat} {r : JobRow}
    (hr : r ∈ db) (hid : r.id = i) :
    ∃ db', Job.remove db i = Except.ok db' ∧
      Job.get db' i = Except.error Err.notFound := by
  have ha : db.any (fun r => decide (r.id = i)) = true :=
    List.any_eq_true.mpr ⟨r, hr, by simp [hid]⟩
  refine ⟨db.filter fun r => decide (r.id ≠ i), ?_, ?_⟩
  · unfold Job.remove; rw [if_pos ha]
  · rw [job_get_error_iff]
    intro x hx
    simpa using (List.mem_filter.mp hx).2

theorem company_get_error_iff {cdb : List CompanyRow} {jdb : List JobRow}
    {h : String} :
    Company.get cdb jdb h = Except.error Err.notFound ↔
      ∀ c ∈ cdb, c.handle ≠ h := by
  constructor
  · intro he c hc hh
    have hs : (cdb.find? fun c => decide (c.handle = h)).isSome :=
      List.find?_isSome.mpr ⟨c, hc, by simp [hh]⟩
    rcases heq : cdb.find? (fun c => decide (c.handle = h)) with _ | c'
    · rw [heq] at hs; cases hs
    · unfold Company.get at he; rw [heq] at he; cases he
  · intro hall
    have hn : cdb.find? (fun c => decide (c.handle = h)) = none :=
      List.find?_eq_none.mpr fun x hx => by simp [hall x hx]
    unfold Company.get; rw [hn]

theorem company_remove_error_iff {cdb : List CompanyRow} {h : String} :
    Company.remove cdb h = Except.error Err.notFound ↔
      ∀ c ∈ cdb, c.handle ≠ h := by
  constructor
  · intro he c hc hh
    have ha : cdb.any (fun c => decide (c.handle = h)) = true :=
      List.any_eq_true.mpr ⟨c, hc, by simp [hh]⟩
    unfold Company.remove at he; rw [if_pos ha] at he; cases he
  · intro hall
    have ha : ¬ (cdb.any (fun c => decide (c.handle = h)) = true) := fun hh => by
      obtain ⟨x, hx, hpx⟩ := List.any_eq_true.mp hh
      exact hall x hx (by simpa using hpx)
    unfold Company.remove; rw [if_neg ha]

theorem company_remove_then_get {cdb : List CompanyRow} {h : String}
    {c : CompanyRow} (hc : c ∈ cdb) (hh : c.handle = h) :
    ∃ cdb', Company.remove cdb h = Except.ok cdb' ∧
      ∀ jdb, Company.get cdb' jdb h = Except.error Err.notFound := by
  have ha : cdb.any (fun c => decide (c.handle = h)) = true :=
    List.any_eq_true.mpr ⟨c, hc, by simp [hh]⟩
  refine ⟨cdb.filter fun c => decide (c.handle ≠ h), ?_, ?_⟩
  · unfold Company.remove; rw [if_pos ha]
  · intro jdb
    rw [company_get_error_iff]
    intro x hx
    simpa using (List.mem_filter.mp hx).2

theorem company_get_success {cdb : List CompanyRow} {jdb : List JobRow}
    {h : String} (hex : ∃ c ∈ cdb, c.handle = h) :
    ∃ c jobs, Company.get cdb jdb h = Except.ok ⟨c, jobs⟩ ∧ c ∈ cdb ∧
      c.handle = h ∧
      ∀ o, o ∈ jobs ↔ ∃ j ∈ jdb, toJobOut j = o ∧ j.companyHandle = h := by
  obtain ⟨c, hc, hh⟩ := hex
  have hs : (cdb.find? fun c => decide (c.handle = h)).isSome :=
    List.find?_isSome.mpr ⟨c, hc, by simp [hh]⟩
  rcases heq : cdb.find? (fun c => decide (c.handle = h)) with _ | c'
  · rw [heq] at hs; cases hs
  · refine ⟨c',
      List.insertionSort (fun a b => strLe a.title b.title = true)
        ((jdb.filter fun j => decide (j.companyHandle = h)).map toJobOut),
      ?_, List.mem_of_find?_eq_some heq, ?_, ?_⟩
    · unfold Company.get; rw [heq]
    · simpa using List.find?_some heq
    · intro o
      simp [List.mem_insertionSort, List.mem_filter]
      tauto

/-- C8: Job.get/Job.remove and Company.get/Company.remove raise
NotFoundError exactly when no row carries the requested key; removing an
existing key succeeds and a subsequent get of that key raises NotFoundError;
a successful Company.get returns the matching company together with the
nested array of exactly its jobs. -/
theorem get_remove_not_found :
    (∀ (db : List JobRow) (i : Nat),
      (Job.get db i = Except.error Err.notFound ↔ ∀ r ∈ db, r.id ≠ i)
      ∧ (Job.remove db i = Except.error Err.notFound ↔ ∀ r ∈ db, r.id ≠ i))
    ∧ (∀ (db : List JobRow) (i : Nat) (r : JobRow), r ∈ db → r.id = i →
      ∃ db', Job.remove db i = Except.ok db' ∧
        Job.get db' i = Except.error Err.notFound)
    ∧ (∀ (cdb : List CompanyRow) (jdb : List JobRow) (h : String),
      (Company.get cdb jdb h = Except.error Err.notFound ↔
        ∀ c ∈ cdb, c.handle ≠ h)
      ∧ (Company.remove cdb h = Except.error Err.notFound ↔
        ∀ c ∈ cdb, c.handle ≠ h))
    ∧ (∀ (cdb : List CompanyRow) (h : String) (c : CompanyRow),
      c ∈ cdb → c.handle = h →
      ∃ cdb', Company.remove cdb h = Except.ok cdb' ∧
        ∀ jdb, Company.get cdb' jdb h = Except.error Err.notFound)
    ∧ (∀ (cdb : List CompanyRow) (jdb : List JobRow) (h : String),
      (∃ c ∈ cdb, c.handle = h) →
      ∃ c jobs, Company.get cdb jdb h = Except.ok ⟨c, jobs⟩ ∧ c ∈ cdb ∧
        c.handle = h ∧
        ∀ o, o ∈ jobs ↔ ∃ j ∈ jdb, toJobOut j = o ∧ j.companyHandle = h) :=
  ⟨fun _ _ => ⟨job_get_error_iff, job_remove_error_iff⟩,
   fun _ _ _ hr hid => job_remove_then_get hr hid,
   fun _ _ _ => ⟨company_get_error_iff, company_remove_error_iff⟩,
   fun _ _ _ hc hh => company_remove_then_get hc hh,
   fun _ _ _ hex => company_get_success hex⟩

theorem get_remove_not_found_witness :
    ∃ db', Job.remove [⟨7, "t", none, none, "c"⟩] 7 = Except.ok db' ∧
      Job.get db' 7 = Except.error Err.notFound :=
  get_remove_not_found.2.1 [⟨7, "t", none, none, "c"⟩] 7
    ⟨7, "t", none, none, "c"⟩ (by decide) rfl

end Jobly

namespace Jobly

/-- Renaming of the database-generated job ids. -/
def mapIds (f : Nat → Nat) (db : List JobRow) : List JobRow :=
  db.map fun r => { r with id := f r.id }

theorem findAll_mapIds (f : Nat → Nat) (db : List JobRow) :
    Job.findAll (mapIds f db) = Job.findAll db := by
  simp only [Job.findAll, mapIds, List.map_map]
  rfl

theorem title_filter_mapIds (f : Nat → Nat) (db : List JobRow) (s : String) :
    Job.title_filter (mapIds f db) s = Job.title_filter db s := by
  simp only [Job.title_filter, mapIds, List.filter_map, List.map_map]
  rfl

theorem minSalary_filter_mapIds (f : Nat → Nat) (db : List JobRow) (n : Int) :
    Job.minSalary_filter (mapIds f db) n = Job.minSalary_filter db n := by
  simp only [Job.minSalary_filter, mapIds, List.filter_map, List.map_map]
  rfl

theorem hasEquity_filter_mapIds (f : Nat → Nat) (db : List JobRow) (h : Bool) :
    Job.hasEquity_filter (mapIds f db) h = Job.hasEquity_filter db h := by
  rcases h with _ | _
  · simp only [Job.hasEquity_filter, mapIds,
      if_neg (show ¬ ((false : Bool) = true) by decide), List.map_map]
    rfl
  · simp only [Job.hasEquity_filter, mapIds,
      if_pos (show (true : Bool) = true from rfl), if_true, eq_self_iff_true,
      List.filter_map, List.map_map]
    rfl

theorem multi_filter_mapIds (f : Nat → Nat) (db : List JobRow)
    (t : Option String) (m : Option Int) (h : Bool) :
    Job.multi_filter (mapIds f db) t m h = Job.multi_filter db t m h := by
  rcases ht : truthyStr t with _ | s <;> rcases m with _ | n <;>
    rcases h with _ | _ <;>
    simp only [Job.multi_filter, ht, findAll_mapIds, title_filter_mapIds,
      minSalary_filter_mapIds, hasEquity_filter_mapIds]

theorem find?_id_mapIds {f : Nat → Nat} (hf : Function.Injective f)
    (db : List JobRow) (i : Nat) :
    (mapIds f db).find? (fun r => decide (r.id = f i)) =
      (db.find? fun r => decide (r.id = i)).map fun r => { r with id := f r.id } := by
  unfold mapIds
  rw [List.find?_map]
  refine congrArg _ (congrFun (congrArg _ ?_) _)
  funext r
  exact decide_eq_decide.mpr ⟨fun h => hf h, fun h => congrArg f h⟩

theorem get_mapIds {f : Nat → Nat} (hf : Function.Injective f)
    (db : List JobRow) (i : Nat) :
    Job.get (mapIds f db) (f i) = Job.get db i := by
  unfold Job.get
  rw [find?_id_mapIds hf]
  rcases heq : db.find? (fun r => decide (r.id = i)) with _ | r <;>
    rw [heq] <;> rfl

theorem setJobCol_setId (r : JobRow) (n : Nat) (c : String) (v : Val) :
    Job.setJobCol { r with id := n } c v = { Job.setJobCol r c v with id := n } := by
  cases v <;> unfold Job.setJobCol <;> (repeat' split) <;> rfl

theorem foldl_setJobCol_setId (data : List (String × Val)) (r : JobRow)
    (n : Nat) :
    data.foldl (fun r kv => Job.setJobCol r (colFor Job.jsToSql kv.1) kv.2)
        { r with id := n } =
      { data.foldl (fun r kv => Job.setJobCol r (colFor Job.jsToSql kv.1) kv.2) r
        with id := n } := by
  induction data generalizing r with
  | nil => rfl
  | cons kv rest ih =>
    simp only [List.foldl_cons, setJobCol_setId, ih]

theorem update_mapIds {f : Nat → Nat} (hf : Function.Injective f)
    (db : List JobRow) (i : Nat) (data : List (String × Val)) :
    (Job.update (mapIds f db) (f i) data).map Prod.fst =
      (Job.update db i data).map Prod.fst := by
  unfold Job.update
  rcases hsql : sqlForPartialUpdate data Job.jsToSql with e | u
  · rfl
  · rw [find?_id_mapIds hf]
    rcases heq : db.find? (fun r => decide (r.id = i)) with _ | r <;> rw [heq]
    · rfl
    · simp only [Option.map_some']
      rw [foldl_setJobCol_setId]
      rfl

/-- C10: the values returned by Job.create, Job.findAll, Job.get,
Job.update and Job.multi_filter never include the database-generated job
id: renaming every id by an injective function (adjusting the addressed id
accordingly) leaves all returned values unchanged, and the entity returned
by create is independent of the id the database assigns. -/
theorem job_results_omit_id :
    ∀ (f : Nat → Nat), Function.Injective f → ∀ db : List JobRow,
      (Job.findAll (mapIds f db) = Job.findAll db)
      ∧ (∀ t m h, Job.multi_filter (mapIds f db) t m h =
          Job.multi_filter db t m h)
      ∧ (∀ i, Job.get (mapIds f db) (f i) = Job.get db i)
      ∧ (∀ i data, (Job.update (mapIds f db) (f i) data).map Prod.fst =
          (Job.update db i data).map Prod.fst)
      ∧ (∀ t s e c n n' db2,
          (Job.create t s e c n db).1 = (Job.create t s e c n' db2).1) :=
  fun f hf db =>
    ⟨findAll_mapIds f db,
     fun t m h => multi_filter_mapIds f db t m h,
     fun i => get_mapIds hf db i,
     fun i data => update_mapIds hf db i data,
     fun _ _ _ _ _ _ _ => rfl⟩

theorem job_results_omit_id_witness :
    Job.get (mapIds (fun n => n + 1) [⟨1, "a", none, none, "c"⟩]) 2 =
      Job.get [⟨1, "a", none, none, "c"⟩] 1 :=
  (job_results_omit_id (fun n => n + 1) (add_left_injective 1)
    [⟨1, "a", none, none, "c"⟩]).2.2.1 1

end Jobly

namespace Jobly

/-- The value the update payload supplies for a JS field name: first match
in iteration order. -/
def lookupData (data : List (String × Val)) (f : String) : Option Val :=
  (data.find? fun kv => decide (kv.1 = f)).map Prod.snd

/-- The row state the spec prescribes after a partial job update: each field
named in the payload carries the supplied value, every other field its prior
value, and the generated id is untouched. -/
def specPatchedJob (r : JobRow) (data : List (String × Val)) : JobRow :=
  { id := r.id
    title := match lookupData data "title" with
      | some (Val.s s) => s
      | _ => r.title
    salary := match lookupData data "salary" with
      | some (Val.i n) => some n
      | some Val.null => none
      | _ => r.salary
    equity := match lookupData data "equity" with
      | some (Val.s s) => some s
      | some Val.null => none
      | _ => r.equity
    companyHandle := match lookupData data "companyHandle" with
      | some (Val.s s) => s
      | _ => r.companyHandle }

/-- A well-typed field of a job update body, as the jobUpdate JSON schema
admits it: a known column name paired with a value of the column's type. -/
def WTJobField (f : String) (v : Val) : Prop :=
  (f = "title" ∧ ∃ s, v = Val.s s) ∨
  (f = "salary" ∧ ((∃ n, v = Val.i n) ∨ v = Val.null)) ∨
  (f = "equity" ∧ ((∃ s, v = Val.s s) ∨ v = Val.null)) ∨
  (f = "companyHandle" ∧ ∃ s, v = Val.s s)

theorem lookupData_cons_self {kv : String × Val} {rest : List (String × Val)}
    {f : String} (h : kv.1 = f) : lookupData (kv :: rest) f = some kv.2 := by
  unfold lookupData
  rw [List.find?_cons_of_pos _ (by simp [h])]
  rfl

theorem lookupData_cons_ne {kv : String × Val} {rest : List (String × Val)}
    {f : String} (h : kv.1 ≠ f) :
    lookupData (kv :: rest) f = lookupData rest f := by
  unfold lookupData
  rw [List.find?_cons_of_neg _ (by simp [h])]

theorem lookupData_not_mem {data : List (String × Val)} {f : String}
    (h : f ∉ data.map Prod.fst) : lookupData data f = none := by
  have hn : data.find? (fun kv => decide (kv.1 = f)) = none :=
    List.find?_eq_none.mpr fun x hx => by
      simp only [decide_eq_true_eq]
      intro he
      exact h (he ▸ List.mem_map_of_mem Prod.fst hx)
  unfold lookupData
  rw [hn]
  rfl

theorem specPatchedJob_step (r : JobRow) (kf : String) (v : Val)
    (rest : List (String × Val)) (hw : WTJobField kf v)
    (hn : kf ∉ rest.map Prod.fst) :
    specPatchedJob (Job.setJobCol r (colFor Job.jsToSql kf) v) rest =
      specPatchedJob r ((kf, v) :: rest) := by
  rcases hw with ⟨rfl, s, rfl⟩ | ⟨rfl, ⟨n, rfl⟩ | rfl⟩ | ⟨rfl, ⟨s, rfl⟩ | rfl⟩ |
    ⟨rfl, s, rfl⟩
  · have he : Job.setJobCol r (colFor Job.jsToSql "title") (Val.s s) =
        { r with title := s } := rfl
    rw [he]
    unfold specPatchedJob
    rw [lookupData_not_mem hn, lookupData_cons_self (f := "title") rfl,
      lookupData_cons_ne (show ("title" : String) ≠ "salary" by decide),
      lookupData_cons_ne (show ("title" : String) ≠ "equity" by decide),
      lookupData_cons_ne (show ("title" : String) ≠ "companyHandle" by decide)]
  · have he : Job.setJobCol r (colFor Job.jsToSql "salary") (Val.i n) =
        { r with salary := some n } := rfl
    rw [he]
    unfold specPatchedJob
    rw [lookupData_not_mem hn, lookupData_cons_self (f := "salary") rfl,
      lookupData_cons_ne (show ("salary" : String) ≠ "title" by decide),
      lookupData_cons_ne (show ("salary" : String) ≠ "equity" by decide),
      lookupData_cons_ne (show ("salary" : String) ≠ "companyHandle" by decide)]
  · have he : Job.setJobCol r (colFor Job.jsToSql "salary") Val.null =
        { r with salary := none } := rfl
    rw [he]
    unfold specPatchedJob
    rw [lookupData_not_mem hn, lookupData_cons_self (f := "salary") rfl,
      lookupData_cons_ne (show ("salary" : String) ≠ "title" by decide),
      lookupData_cons_ne (show ("salary" : String) ≠ "equity" by decide),
      lookupData_cons_ne (show ("salary" : String) ≠ "companyHandle" by decide)]
  · have he : Job.setJobCol r (colFor Job.jsToSql "equity") (Val.s s) =
        { r with equity := some s } := rfl
    rw [he]
    unfold specPatchedJob
    rw [lookupData_not_mem hn, lookupData_cons_self (f := "equity") rfl,
      lookupData_cons_ne (show ("equity" : String) ≠ "title" by decide),
      lookupData_cons_ne (show ("equity" : String) ≠ "salary" by decide),
      lookupData_cons_ne (show ("equity" : String) ≠ "companyHandle" by decide)]
  · have he : Job.setJobCol r (colFor Job.jsToSql "equity") Val.null =
        { r with equity := none } := rfl
    rw [he]
    unfold specPatchedJob
    rw [lookupData_not_mem hn, lookupData_cons_self (f := "equity") rfl,
      lookupData_cons_ne (show ("equity" : String) ≠ "title" by decide),
      lookupData_cons_ne (show ("equity" : String) ≠ "salary" by decide),
      lookupData_cons_ne (show ("equity" : String) ≠ "companyHandle" by decide)]
  · have he : Job.setJobCol r (colFor Job.jsToSql "companyHandle") (Val.s s) =
        { r with companyHandle := s } := rfl
    rw [he]
    unfold specPatchedJob
    rw [lookupData_not_mem hn, lookupData_cons_self (f := "companyHandle") rfl,
      lookupData_cons_ne (show ("companyHandle" : String) ≠ "title" by decide),
      lookupData_cons_ne (show ("companyHandle" : String) ≠ "salary" by decide),
      lookupData_cons_ne (show ("companyHandle" : String) ≠ "equity" by decide)]

end Jobly

namespace Jobly

theorem job_foldl_spec (data : List (String × Val)) (r : JobRow)
    (hk : (data.map Prod.fst).Nodup)
    (hw : ∀ kv ∈ data, WTJobField kv.1 kv.2) :
    data.foldl (fun r kv => Job.setJobCol r (colFor Job.jsToSql kv.1) kv.2) r =
      specPatchedJob r data := by
  induction data generalizing r with
  | nil => rfl
  | cons kv rest ih =>
    rw [List.map_cons] at hk
    obtain ⟨hk1, hk2⟩ := List.nodup_cons.mp hk
    rw [List.foldl_cons,
      ih _ hk2 (fun kv' h' => hw kv' (List.mem_cons_of_mem kv h'))]
    exact specPatchedJob_step r kv.1 kv.2 rest
      (hw kv (List.mem_cons_self kv rest)) hk1

theorem job_update_part (db : List JobRow) (i : Nat) (r : JobRow)
    (data : List (String × Val)) (hnd : (db.map JobRow.id).Nodup)
    (hr : r ∈ db) (hid : r.id = i) (hne : data ≠ [])
    (hk : (data.map Prod.fst).Nodup)
    (hw : ∀ kv ∈ data, WTJobField kv.1 kv.2) :
    ∃ db', Job.update db i data =
        Except.ok (toJobOut (specPatchedJob r data), db')
      ∧ specPatchedJob r data ∈ db'
      ∧ db'.map JobRow.id = db.map JobRow.id
      ∧ (∀ x ∈ db, x.id ≠ i → x ∈ db')
      ∧ (∀ x ∈ db', x.id ≠ i → x ∈ db) := by
  obtain ⟨u, hu⟩ : ∃ u, sqlForPartialUpdate data Job.jsToSql = Except.ok u := by
    cases data with
    | nil => exact absurd rfl hne
    | cons kv rest => exact ⟨_, rfl⟩
  have hfold : ∀ x : JobRow,
      data.foldl (fun r kv => Job.setJobCol r (colFor Job.jsToSql kv.1) kv.2) x =
        specPatchedJob x data := fun x => job_foldl_spec data x hk hw
  have hfind : db.find? (fun x => decide (x.id = i)) = some r := by
    rcases heq : db.find? (fun x => decide (x.id = i)) with _ | r'
    · exact absurd (List.find?_eq_none.mp heq r hr) (by simp [hid])
    · have h1 : r' ∈ db := List.mem_of_find?_eq_some heq
      have h2 : r'.id = i := by simpa using List.find?_some heq
      have : r' = r :=
        List.inj_on_of_nodup_map hnd h1 hr (by rw [h2, hid])
      rw [heq, this]
  refine ⟨db.map fun x => if x.id = i then specPatchedJob x data else x,
    ?_, ?_, ?_, ?_, ?_⟩
  · simp only [Job.update, hu, hfind]
    have hmapeq : (db.map fun x =>
        if x.id = i then
          data.foldl
            (fun r kv => Job.setJobCol r (colFor Job.jsToSql kv.1) kv.2) x
        else x) =
        db.map fun x => if x.id = i then specPatchedJob x data else x :=
      List.map_congr_left fun x _ => by rw [hfold x]
    rw [hfold r, hmapeq]
  · have : (if r.id = i then specPatchedJob r data else r) ∈
        db.map fun x => if x.id = i then specPatchedJob x data else x :=
      List.mem_map_of_mem _ hr
    rwa [if_pos hid] at this
  · rw [List.map_map]
    refine List.map_congr_left fun x _ => ?_
    by_cases hx : x.id = i
    · simp only [Function.comp_apply, if_pos hx]
      rfl
    · simp only [Function.comp_apply, if_neg hx]
  · intro x hx hxi
    have : (if x.id = i then specPatchedJob x data else x) ∈
        db.map fun x => if x.id = i then specPatchedJob x data else x :=
      List.mem_map_of_mem _ hx
    rwa [if_neg hxi] at this
  · intro y hy hyi
    obtain ⟨x, hx, hxy⟩ := List.mem_map.mp hy
    by_cases hxi : x.id = i
    · exfalso
      apply hyi
      rw [← hxy, if_pos hxi]
      exact hxi ▸ rfl
    · rwa [← hxy, if_neg hxi]

end Jobly

namespace Jobly

/-- The company state the spec prescribes after a partial company update:
fields named in the payload carry the supplied values, the rest keep their
prior values, the handle is untouched. -/
def specPatchedCompany (c : CompanyRow) (data : List (String × Val)) :
    CompanyRow :=
  { handle := c.handle
    name := match lookupData data "name" with
      | some (Val.s s) => s
      | _ => c.name
    description := match lookupData data "description" with
      | some (Val.s s) => s
      | _ => c.description
    numEmployees := match lookupData data "numEmployees" with
      | some (Val.i n) => some n
      | some Val.null => none
      | _ => c.numEmployees
    logoUrl := match lookupData data "logoUrl" with
      | some (Val.s s) => some s
      | some Val.null => none
      | _ => c.logoUrl }

/-- A well-typed field of a company update body, as the companyUpdate JSON
schema admits it (the handle is not updatable). -/
def WTCompanyField (f : String) (v : Val) : Prop :=
  (f = "name" ∧ ∃ s, v = Val.s s) ∨
  (f = "description" ∧ ∃ s, v = Val.s s) ∨
  (f = "numEmployees" ∧ ((∃ n, v = Val.i n) ∨ v = Val.null)) ∨
  (f = "logoUrl" ∧ ((∃ s, v = Val.s s) ∨ v = Val.null))

theorem specPatchedCompany_step (c : CompanyRow) (kf : String) (v : Val)
    (rest : List (String × Val)) (hw : WTCompanyField kf v)
    (hn : kf ∉ rest.map Prod.fst) :
    specPatchedCompany
        (Company.setCompanyCol c (colFor Company.jsToSql kf) v) rest =
      specPatchedCompany c ((kf, v) :: rest) := by
  rcases hw with ⟨rfl, s, rfl⟩ | ⟨rfl, s, rfl⟩ | ⟨rfl, ⟨n, rfl⟩ | rfl⟩ |
    ⟨rfl, ⟨s, rfl⟩ | rfl⟩
  · have he : Company.setCompanyCol c (colFor Company.jsToSql "name")
        (Val.s s) = { c with name := s } := rfl
    rw [he]
    unfold specPatchedCompany
    rw [lookupData_not_mem hn, lookupData_cons_self (f := "name") rfl,
      lookupData_cons_ne (show ("name" : String) ≠ "description" by decide),
      lookupData_cons_ne (show ("name" : String) ≠ "numEmployees" by decide),
      lookupData_cons_ne (show ("name" : String) ≠ "logoUrl" by decide)]
  · have he : Company.setCompanyCol c (colFor Company.jsToSql "description")
        (Val.s s) = { c with description := s } := rfl
    rw [he]
    unfold specPatchedCompany
    rw [lookupData_not_mem hn, lookupData_cons_self (f := "description") rfl,
      lookupData_cons_ne (show ("description" : String) ≠ "name" by decide),
      lookupData_cons_ne
        (show ("description" : String) ≠ "numEmployees" by decide),
      lookupData_cons_ne (show ("description" : String) ≠ "logoUrl" by decide)]
  · have he : Company.setCompanyCol c (colFor Company.jsToSql "numEmployees")
        (Val.i n) = { c with numEmployees := some n } := rfl
    rw [he]
    unfold specPatchedCompany
    rw [lookupData_not_mem hn, lookupData_cons_self (f := "numEmployees") rfl,
      lookupData_cons_ne (show ("numEmployees" : String) ≠ "name" by decide),
      lookupData_cons_ne
        (show ("numEmployees" : String) ≠ "description" by decide),
      lookupData_cons_ne (show ("numEmployees" : String) ≠ "logoUrl" by decide)]
  · have he : Company.setCompanyCol c (colFor Company.jsToSql "numEmployees")
        Val.null = { c with numEmployees := none } := rfl
    rw [he]
    unfold specPatchedCompany
    rw [lookupData_not_mem hn, lookupData_cons_self (f := "numEmployees") rfl,
      lookupData_cons_ne (show ("numEmployees" : String) ≠ "name" by decide),
      lookupData_cons_ne
        (show ("numEmployees" : String) ≠ "description" by decide),
      lookupData_cons_ne (show ("numEmployees" : String) ≠ "logoUrl" by decide)]
  · have he : Company.setCompanyCol c (colFor Company.jsToSql "logoUrl")
        (Val.s s) = { c with logoUrl := some s } := rfl
    rw [he]
    unfold specPatchedCompany
    rw [lookupData_not_mem hn, lookupData_cons_self (f := "logoUrl") rfl,
      lookupData_cons_ne (show ("logoUrl" : String) ≠ "name" by decide),
      lookupData_cons_ne (show ("logoUrl" : String) ≠ "description" by decide),
      lookupData_cons_ne (show ("logoUrl" : String) ≠ "numEmployees" by decide)]
  · have he : Company.setCompanyCol c (colFor Company.jsToSql "logoUrl")
        Val.null = { c with logoUrl := none } := rfl
    rw [he]
    unfold specPatchedCompany
    rw [lookupData_not_mem hn, lookupData_cons_self (f := "logoUrl") rfl,
      lookupData_cons_ne (show ("logoUrl" : String) ≠ "name" by decide),
      lookupData_cons_ne (show ("logoUrl" : String) ≠ "description" by decide),
      lookupData_cons_ne (show ("logoUrl" : String) ≠ "numEmployees" by decide)]

theorem company_foldl_spec (data : List (String × Val)) (c : CompanyRow)
    (hk : (data.map Prod.fst).Nodup)
    (hw : ∀ kv ∈ data, WTCompanyField kv.1 kv.2) :
    data.foldl
        (fun c kv => Company.setCompanyCol c (colFor Company.jsToSql kv.1) kv.2)
        c =
      specPatchedCompany c data := by
  induction data generalizing c with
  | nil => rfl
  | cons kv rest ih =>
    rw [List.map_cons] at hk
    obtain ⟨hk1, hk2⟩ := List.nodup_cons.mp hk
    rw [List.foldl_cons,
      ih _ hk2 (fun kv' h' => hw kv' (List.mem_cons_of_mem kv h'))]
    exact specPatchedCompany_step c kv.1 kv.2 rest
      (hw kv (List.mem_cons_self kv rest)) hk1

theorem company_update_part (cdb : List CompanyRow) (h : String)
    (c : CompanyRow) (data : List (String × Val))
    (hnd : (cdb.map CompanyRow.handle).Nodup) (hc : c ∈ cdb)
    (hh : c.handle = h) (hne : data ≠ [])
    (hk : (data.map Prod.fst).Nodup)
    (hw : ∀ kv ∈ data, WTCompanyField kv.1 kv.2) :
    ∃ cdb', Company.update cdb h data =
        Except.ok (specPatchedCompany c data, cdb')
      ∧ specPatchedCompany c data ∈ cdb'
      ∧ cdb'.map CompanyRow.handle = cdb.map CompanyRow.handle
      ∧ (∀ x ∈ cdb, x.handle ≠ h → x ∈ cdb')
      ∧ (∀ x ∈ cdb', x.handle ≠ h → x ∈ cdb) := by
  obtain ⟨u, hu⟩ : ∃ u, sqlForPartialUpdate data Company.jsToSql =
      Except.ok u := by
    cases data with
    | nil => exact absurd rfl hne
    | cons kv rest => exact ⟨_, rfl⟩
  have hfold : ∀ x : CompanyRow,
      data.foldl
          (fun c kv =>
            Company.setCompanyCol c (colFor Company.jsToSql kv.1) kv.2) x =
        specPatchedCompany x data := fun x => company_foldl_spec data x hk hw
  have hfind : cdb.find? (fun x => decide (x.handle = h)) = some c := by
    rcases heq : cdb.find? (fun x => decide (x.handle = h)) with _ | c'
    · exact absurd (List.find?_eq_none.mp heq c hc) (by simp [hh])
    · have h1 : c' ∈ cdb := List.mem_of_find?_eq_some heq
      have h2 : c'.handle = h := by simpa using List.find?_some heq
      have : c' = c :=
        List.inj_on_of_nodup_map hnd h1 hc (by rw [h2, hh])
      rw [heq, this]
  refine ⟨cdb.map fun x => if x.handle = h then specPatchedCompany x data else x,
    ?_, ?_, ?_, ?_, ?_⟩
  · simp only [Company.update, hu, hfind]
    have hmapeq : (cdb.map fun x =>
        if x.handle = h then
          data.foldl
            (fun c kv =>
              Company.setCompanyCol c (colFor Company.jsToSql kv.1) kv.2) x
        else x) =
        cdb.map fun x => if x.handle = h then specPatchedCompany x data else x :=
      List.map_congr_left fun x _ => by rw [hfold x]
    rw [hfold c, hmapeq]
  · have : (if c.handle = h then specPatchedCompany c data else c) ∈
        cdb.map fun x => if x.handle = h then specPatchedCompany x data else x :=
      List.mem_map_of_mem _ hc
    rwa [if_pos hh] at this
  · rw [List.map_map]
    refine List.map_congr_left fun x _ => ?_
    by_cases hx : x.handle = h
    · simp only [Function.comp_apply, if_pos hx]
      rfl
    · simp only [Function.comp_apply, if_neg hx]
  · intro x hx hxh
    have : (if x.handle = h then specPatchedCompany x data else x) ∈
        cdb.map fun x => if x.handle = h then specPatchedCompany x data else x :=
      List.mem_map_of_mem _ hx
    rwa [if_neg hxh] at this
  · intro y hy hyh
    obtain ⟨x, hx, hxy⟩ := List.mem_map.mp hy
    by_cases hxh : x.handle = h
    · exfalso
      apply hyh
      rw [← hxy, if_pos hxh]
      exact hxh ▸ rfl
    · rwa [← hxy, if_neg hxh]

end Jobly

namespace Jobly

/-- C7: after Job.update(id, data) or Company.update(handle, data) on an
existing entity with a schema-conforming non-empty body, the stored row has
each field named in data set exactly to the supplied value and every field
not named in data equal to its prior value, and the key addresses that row
only: all other rows are untouched. -/
theorem partial_update_frame :
    (∀ (db : List JobRow) (i : Nat) (r : JobRow)
        (data : List (String × Val)),
      (db.map JobRow.id).Nodup → r ∈ db → r.id = i → data ≠ [] →
      (data.map Prod.fst).Nodup → (∀ kv ∈ data, WTJobField kv.1 kv.2) →
      ∃ db', Job.update db i data =
          Except.ok (toJobOut (specPatchedJob r data), db')
        ∧ specPatchedJob r data ∈ db'
        ∧ db'.map JobRow.id = db.map JobRow.id
        ∧ (∀ x ∈ db, x.id ≠ i → x ∈ db')
        ∧ (∀ x ∈ db', x.id ≠ i → x ∈ db))
    ∧ (∀ (cdb : List CompanyRow) (h : String) (c : CompanyRow)
        (data : List (String × Val)),
      (cdb.map CompanyRow.handle).Nodup → c ∈ cdb → c.handle = h → data ≠ [] →
      (data.map Prod.fst).Nodup → (∀ kv ∈ data, WTCompanyField kv.1 kv.2) →
      ∃ cdb', Company.update cdb h data =
          Except.ok (specPatchedCompany c data, cdb')
        ∧ specPatchedCompany c data ∈ cdb'
        ∧ cdb'.map CompanyRow.handle = cdb.map CompanyRow.handle
        ∧ (∀ x ∈ cdb, x.handle ≠ h → x ∈ cdb')
        ∧ (∀ x ∈ cdb', x.handle ≠ h → x ∈ cdb)) :=
  ⟨job_update_part, company_update_part⟩

theorem partial_update_frame_witness :
    ∃ db', Job.update [⟨1, "old", some 5, none, "c"⟩] 1
        [("title", Val.s "new")] =
        Except.ok
          (toJobOut (specPatchedJob ⟨1, "old", some 5, none, "c"⟩
            [("title", Val.s "new")]), db')
      ∧ specPatchedJob ⟨1, "old", some 5, none, "c"⟩
          [("title", Val.s "new")] ∈ db'
      ∧ db'.map JobRow.id =
          ([⟨1, "old", some 5, none, "c"⟩] : List JobRow).map JobRow.id
      ∧ (∀ x ∈ ([⟨1, "old", some 5, none, "c"⟩] : List JobRow),
          x.id ≠ 1 → x ∈ db')
      ∧ (∀ x ∈ db', x.id ≠ 1 →
          x ∈ ([⟨1, "old", some 5, none, "c"⟩] : List JobRow)) :=
  partial_update_frame.1 [⟨1, "old", some 5, none, "c"⟩] 1
    ⟨1, "old", some 5, none, "c"⟩ [("title", Val.s "new")]
    (by decide) (by decide) rfl (by decide) (by decide)
    (fun kv hkv => by
      rw [List.mem_singleton] at hkv
      subst hkv
      exact Or.inl ⟨rfl, "new", rfl⟩)

end Jobly
